import Mathlib

/-!
# Verification of the private-registry integrity updater

Shallow embedding of `src/tools/update_integrity.py`: the SRI digest engine
(`integrity`), the JSON serializer used to persist records (`json_dump`), and
the registry reconciler (`PrivateRegistryClient.update_integrity` and
`PrivateRegistryClient.module_exists`), together with theorems settling the
specification claims about them.

Modelling conventions:
* bytes are `List Nat` (each byte taken mod 256 where its numeric value
  matters);
* the external `hashlib` digest functions are parameters, collected in a
  `HashLib` structure, since their internals live outside this repository;
* a parsed JSON document is the inductive `JValue`; Python `dict`s (which
  preserve insertion order and have unique keys) are association lists
  `List (String × JValue)` manipulated by `dictGet` / `dictSet` / `dictPop`,
  which mirror `d[k]`, `d[k] = v` and `d.pop(k, None)`;
* the on-disk state touched by one `update_integrity(module, version)` call is
  a `VersionState`: the existence flag for the version directory, the parsed
  `source.json` (with `none` for a missing file and `some none` for an
  unparsable one, mirroring the fact that Python round-trips JSON objects
  through `json.load`/`json.dump` preserving key order), and the listings of
  the `patches` and `overlay` directories; a file entry's `data : Option Bytes`
  is `none` when reading that file would fail;
* the network/file fetch collaborator `download` is a parameter
  `fetch : String → Option Bytes` (`none` = fetch failure).
-/

set_option autoImplicit false

namespace RegistryTool

/-- Raw file contents: a list of byte values. -/
abbrev Bytes := List Nat

/-- A parsed JSON value, as produced by Python's `json.load`.  Objects are
insertion-ordered association lists, exactly like Python `dict`s. -/
inductive JValue where
  | null : JValue
  | bool (b : Bool) : JValue
  | num (n : Int) : JValue
  | str (s : String) : JValue
  | arr (items : List JValue) : JValue
  | obj (fields : List (String × JValue)) : JValue
deriving Repr

/-- A parsed Source Record (`source.json`): a top-level JSON object. -/
abbrev SourceRecord := List (String × JValue)

/-! ## Python dict operations on insertion-ordered association lists -/

/-- `d.get(k)` / `k in d`: first binding of `k`, if any. -/
def dictGet : SourceRecord → String → Option JValue
  | [], _ => none
  | (k', v') :: rest, k => if k' = k then some v' else dictGet rest k

/-- `d[k] = v`: replace the binding of `k` in place if present (Python dicts
keep the original insertion position on update), else append a new binding. -/
def dictSet : SourceRecord → String → JValue → SourceRecord
  | [], k, v => [(k, v)]
  | (k', v') :: rest, k, v =>
    if k' = k then (k, v) :: rest else (k', v') :: dictSet rest k v

/-- `d.pop(k, None)`: drop the binding of `k`, if any. -/
def dictPop : SourceRecord → String → SourceRecord
  | [], _ => []
  | (k', v') :: rest, k => if k' = k then rest else (k', v') :: dictPop rest k

/-- The keys of a record, in insertion order. -/
def keys (d : SourceRecord) : List String := d.map Prod.fst

/-! ## Digest engine: `integrity(data, algorithm)` -/

/-- The digest functions of Python's `hashlib` used by the tool, supplied as
an external parameter (their implementations are outside this repository).
`shaN.digest()` returns the raw digest bytes. -/
structure HashLib where
  sha224 : Bytes → Bytes
  sha256 : Bytes → Bytes
  sha384 : Bytes → Bytes
  sha512 : Bytes → Bytes

/-- The standard base64 alphabet (RFC 4648), as used by `base64.b64encode`. -/
def base64Alphabet : List Char :=
  "ABCDEFGHIJKLMNOPQRSTUVWXYZabcdefghijklmnopqrstuvwxyz0123456789+/".toList

/-- The base64 character for a 6-bit group. -/
def b64Char (n : Nat) : Char := base64Alphabet.getD (n % 64) 'A'

/-- `base64.b64encode`, on byte lists, producing the character list of the
standard padded encoding.  Bytes are taken mod 256. -/
def base64EncodeL : Bytes → List Char
  | [] => []
  | [b0] =>
    let n0 := b0 % 256
    [b64Char (n0 / 4), b64Char (n0 % 4 * 16), '=', '=']
  | [b0, b1] =>
    let n0 := b0 % 256
    let n1 := b1 % 256
    [b64Char (n0 / 4), b64Char (n0 % 4 * 16 + n1 / 16), b64Char (n1 % 16 * 4), '=']
  | b0 :: b1 :: b2 :: rest =>
    let n0 := b0 % 256
    let n1 := b1 % 256
    let n2 := b2 % 256
    b64Char (n0 / 4) :: b64Char (n0 % 4 * 16 + n1 / 16) ::
      b64Char (n1 % 16 * 4 + n2 / 64) :: b64Char (n2 % 64) :: base64EncodeL rest

/-- `base64.b64encode(...).decode()`: the padded base64 string. -/
def base64Encode (bs : Bytes) : String := String.mk (base64EncodeL bs)

/-- Failures of the tool, mirroring the exceptions update_integrity can raise. -/
inductive UpdErr where
  /-- `assert algorithm in {...}` failed (`AssertionError`). -/
  | unsupportedAlgorithm : UpdErr
  /-- `Module m@v not found` (`RuntimeError`). -/
  | notFound : UpdErr
  /-- `source.json not found` (`RuntimeError`). -/
  | sourceMissing : UpdErr
  /-- `json.load` failed on `source.json`. -/
  | parseError : UpdErr
  /-- `download(url)` failed. -/
  | fetchFailed : UpdErr
  /-- the record's `url` field is not a string, so `download` cannot run. -/
  | badUrl : UpdErr
  /-- `read_file` failed on a patch or overlay file (`OSError`). -/
  | readFailed : UpdErr
deriving Repr, DecidableEq

/-- Dispatch `getattr(hashlib, algorithm)(data).digest()` for a supported
algorithm name. -/
def hashlibDispatch (H : HashLib) (algorithm : String) (data : Bytes) : Bytes :=
  if algorithm = "sha224" then H.sha224 data
  else if algorithm = "sha256" then H.sha256 data
  else if algorithm = "sha384" then H.sha384 data
  else H.sha512 data

/-- `integrity(data, algorithm)`: SRI string `"<algorithm>-<base64 digest>"`,
after the `assert` that the algorithm is one of the four supported ones. -/
def integrity (H : HashLib) (data : Bytes) (algorithm : String) :
    Except UpdErr String :=
  if algorithm = "sha224" ∨ algorithm = "sha256" ∨
      algorithm = "sha384" ∨ algorithm = "sha512" then
    .ok (algorithm ++ "-" ++ base64Encode (hashlibDispatch H algorithm data))
  else
    .error .unsupportedAlgorithm

theorem integrity_sha256 (H : HashLib) (data : Bytes) :
    integrity H data "sha256" =
      .ok ("sha256-" ++ base64Encode (H.sha256 data)) := rfl

/-! ## On-disk state of one module version -/

/-- An immediate child of the `patches` directory (`patches_dir.iterdir()`):
its name, whether it is a regular file, and — when it is a file — its bytes
(`none` models a read failure in `read_file`). -/
structure PatchEntry where
  name : String
  isFile : Bool
  data : Option Bytes
deriving Repr, DecidableEq

/-- An entry of the recursive walk `overlay_dir.rglob("*")`: its path relative
to the overlay directory as a non-empty list of components, whether it is a
regular file, and its bytes (`none` models a read failure). -/
structure OverlayEntry where
  relPath : List String
  isFile : Bool
  data : Option Bytes
deriving Repr, DecidableEq

/-- `str(path.relative_to(overlay_dir))`: the overlay key. -/
def overlayKey (e : OverlayEntry) : String := String.intercalate "/" e.relPath

/-- `path.name`: the base name of an overlay entry. -/
def baseName (e : OverlayEntry) : String := e.relPath.getLastD ""

/-- The filesystem state, as seen by one `update_integrity(module, version)`
call, of the version directory `<modules>/<module>/<version>`:
`versionExists` is `module_exists(module, version)`; `source` is the
`source.json` file (`none`: absent, `some none`: present but not valid JSON,
`some (some r)`: parses to the object `r`); `patchesDir`/`overlayDir` are the
directory listings (`none`: directory absent). -/
structure VersionState where
  versionExists : Bool
  source : Option (Option SourceRecord)
  patchesDir : Option (List PatchEntry)
  overlayDir : Option (List OverlayEntry)

/-! ## The update algorithm -/

/-- Step 3 of `update_integrity`: if the record has a `url`, download it and
set `integrity` to the sha256 SRI digest of the archive bytes. -/
def urlStep (H : HashLib) (fetch : String → Option Bytes) (s : SourceRecord) :
    Except UpdErr SourceRecord :=
  match dictGet s "url" with
  | none => .ok s
  | some (JValue.str url) =>
    match fetch url with
    | none => .error .fetchFailed
    | some archiveData =>
      match integrity H archiveData "sha256" with
      | .error e => .error e
      | .ok dig => .ok (dictSet s "integrity" (JValue.str dig))
  | some _ => .error .badUrl

/-- The loop `for patch_file in available_patches: patches[...] = ...`,
accumulating the fresh `patches` dict. -/
def buildPatchMap (H : HashLib) : List PatchEntry → SourceRecord →
    Except UpdErr SourceRecord
  | [], acc => .ok acc
  | f :: fs, acc =>
    match f.data with
    | none => .error .readFailed
    | some patchData =>
      match integrity H patchData "sha256" with
      | .error e => .error e
      | .ok dig => buildPatchMap H fs (dictSet acc f.name (JValue.str dig))

/-- Step 4 of `update_integrity`: reconcile the `patches` field against the
immediate regular files of the `patches` directory; remove the field when the
directory is absent or has no regular-file children. -/
def patchesStep (H : HashLib) (pd : Option (List PatchEntry))
    (s : SourceRecord) : Except UpdErr SourceRecord :=
  match pd with
  | none => .ok (dictPop s "patches")
  | some entries =>
    match entries.filter (fun p => p.isFile) with
    | [] => .ok (dictPop s "patches")
    | f :: fs =>
      match buildPatchMap H (f :: fs) [] with
      | .error e => .error e
      | .ok m => .ok (dictSet s "patches" (JValue.obj m))

/-- The filter in lines 183–186: regular files of the recursive overlay walk
whose base name is not the excluded lock filename. -/
def overlayFiles (entries : List OverlayEntry) : List OverlayEntry :=
  entries.filter (fun e => e.isFile && decide (baseName e ≠ "MODULE.bazel.lock"))

/-- The loop `for overlay_file in overlay_files: overlay[...] = ...`. -/
def buildOverlayMap (H : HashLib) : List OverlayEntry → SourceRecord →
    Except UpdErr SourceRecord
  | [], acc => .ok acc
  | f :: fs, acc =>
    match f.data with
    | none => .error .readFailed
    | some overlayData =>
      match integrity H overlayData "sha256" with
      | .error e => .error e
      | .ok dig => buildOverlayMap H fs (dictSet acc (overlayKey f) (JValue.str dig))

/-- Step 5 of `update_integrity`: reconcile the `overlay` field against the
recursive listing of the `overlay` directory, skipping `MODULE.bazel.lock`
files; remove the field when the directory is absent or no file survives the
filter. -/
def overlayStep (H : HashLib) (od : Option (List OverlayEntry))
    (s : SourceRecord) : Except UpdErr SourceRecord :=
  match od with
  | none => .ok (dictPop s "overlay")
  | some entries =>
    match overlayFiles entries with
    | [] => .ok (dictPop s "overlay")
    | f :: fs =>
      match buildOverlayMap H (f :: fs) [] with
      | .error e => .error e
      | .ok m => .ok (dictSet s "overlay" (JValue.obj m))

/-- `PrivateRegistryClient.update_integrity(module, version)`, as the record
it writes (or the error it raises).  The write to `source.json` happens only
after every step has succeeded (`json_dump` is the last statement). -/
def update_integrity (H : HashLib) (fetch : String → Option Bytes)
    (st : VersionState) : Except UpdErr SourceRecord :=
  if st.versionExists then
    match st.source with
    | none => .error .sourceMissing
    | some none => .error .parseError
    | some (some s0) =>
      match urlStep H fetch s0 with
      | .error e => .error e
      | .ok s1 =>
        match patchesStep H st.patchesDir s1 with
        | .error e => .error e
        | .ok s2 => overlayStep H st.overlayDir s2
  else .error .notFound

/-- The effect of one `update_integrity` call on the version directory: on
success the new record is serialized over `source.json`; on any failure
nothing is written and the state is unchanged. -/
def runUpdate (H : HashLib) (fetch : String → Option Bytes)
    (st : VersionState) : VersionState :=
  match update_integrity H fetch st with
  | .ok r => { st with source := some (some r) }
  | .error _ => st

/-! ## Canonical serialization: `json_dump(file_path, data, sort_keys=False)`

`json.dump(data, f, indent=4, sort_keys=False)` followed by `f.write("\n")`,
with `newline="\n"`: 4-space indentation, insertion-order keys, item
separator `","`, key separator `": "`, a trailing newline, `\n` line endings.
Strings are escaped as by `json.dumps` with `ensure_ascii=True` (BMP
characters). -/

/-- Lower-case hex digit. -/
def hexDigit (n : Nat) : Char := "0123456789abcdef".toList.getD (n % 16) '0'

/-- Escape one character as Python's `json.dumps` does. -/
def jsonEscapeChar (c : Char) : List Char :=
  if c = '"' then ['\\', '"']
  else if c = '\\' then ['\\', '\\']
  else if c = '\n' then ['\\', 'n']
  else if c = '\t' then ['\\', 't']
  else if c = '\r' then ['\\', 'r']
  else if c.toNat = 8 then ['\\', 'b']
  else if c.toNat = 12 then ['\\', 'f']
  else if c.toNat < 32 ∨ c.toNat > 126 then
    ['\\', 'u', hexDigit (c.toNat / 4096), hexDigit (c.toNat / 256),
      hexDigit (c.toNat / 16), hexDigit c.toNat]
  else [c]

/-- A JSON string literal, quoted and escaped. -/
def jsonQuote (s : String) : String :=
  "\"" ++ String.mk (s.data.flatMap jsonEscapeChar) ++ "\""

/-- `4 * n` spaces of indentation. -/
def indentStr (n : Nat) : String := String.mk (List.replicate (4 * n) ' ')

mutual

/-- Serialize a JSON value at indentation depth `ind`. -/
def serializeJson : Nat → JValue → String
  | _, .null => "null"
  | _, .bool b => if b then "true" else "false"
  | _, .num n => toString n
  | _, .str s => jsonQuote s
  | _, .arr [] => "[]"
  | ind, .arr (x :: xs) =>
    "[\n" ++ indentStr (ind + 1) ++ serializeJson (ind + 1) x ++
      serializeItems (ind + 1) xs ++ "\n" ++ indentStr ind ++ "]"
  | _, .obj [] => "\x7b\x7d"
  | ind, .obj ((k, v) :: fs) =>
    "\x7b\n" ++ indentStr (ind + 1) ++ jsonQuote k ++ ": " ++
      serializeJson (ind + 1) v ++ serializeFields (ind + 1) fs ++
      "\n" ++ indentStr ind ++ "\x7d"

/-- Remaining array items, each preceded by `",\n"` and indentation. -/
def serializeItems : Nat → List JValue → String
  | _, [] => ""
  | ind, x :: xs =>
    ",\n" ++ indentStr ind ++ serializeJson ind x ++ serializeItems ind xs

/-- Remaining object fields, each preceded by `",\n"` and indentation. -/
def serializeFields : Nat → List (String × JValue) → String
  | _, [] => ""
  | ind, (k, v) :: fs =>
    ",\n" ++ indentStr ind ++ jsonQuote k ++ ": " ++ serializeJson ind v ++
      serializeFields ind fs

end

/-- The full byte content `json_dump` writes to `source.json` for a record. -/
def json_dump (data : SourceRecord) : String :=
  serializeJson 0 (JValue.obj data) ++ "\n"

/-! ## `module_exists` and the modules directory tree -/

/-- A filesystem entry under the modules directory: a regular file or a
directory with its children. -/
inductive FSEntry where
  | file (name : String) : FSEntry
  | dir (name : String) (children : List FSEntry) : FSEntry
deriving Repr

/-- The name of an entry. -/
def FSEntry.name : FSEntry → String
  | .file n => n
  | .dir n _ => n

/-- The entry with a given name among a directory's children, if any. -/
def lookupEntry (es : List FSEntry) (n : String) : Option FSEntry :=
  es.find? (fun e => e.name == n)

/-- `pathlib.Path.exists()` for the path `p` (a list of components) resolved
against a directory listing `es`: every intermediate component must be a
directory containing the next one. -/
def pathExists : List FSEntry → List String → Bool
  | _, [] => true
  | es, n :: rest =>
    match lookupEntry es n with
    | none => false
    | some (.file _) => rest.isEmpty
    | some (.dir _ children) => pathExists children rest

/-- Is the named child a directory? -/
def isDirAt (es : List FSEntry) (n : String) : Bool :=
  match lookupEntry es n with
  | some (.dir _ _) => true
  | _ => false

/-- `PrivateRegistryClient.module_exists(module_name, version)`, over the
listing `es` of the modules directory: `module_dir.exists()` and, when a
version is given, `(module_dir / version).exists()`. -/
def module_exists (es : List FSEntry) (moduleName : String)
    (version : Option String) : Bool :=
  match lookupEntry es moduleName with
  | none => false
  | some e =>
    match version with
    | none => true
    | some v =>
      match e with
      | .file _ => false
      | .dir _ children => (lookupEntry children v).isSome

/-! ## Lemmas about the dict operations -/

@[simp] theorem keys_nil : keys [] = [] := rfl

@[simp] theorem keys_cons (k : String) (v : JValue) (tl : SourceRecord) :
    keys ((k, v) :: tl) = k :: keys tl := rfl

theorem dictGet_eq_none_iff (d : SourceRecord) (k : String) :
    dictGet d k = none ↔ k ∉ keys d := by
  induction d with
  | nil => simp [dictGet]
  | cons hd tl ih =>
    obtain ⟨k', v'⟩ := hd
    by_cases h : k' = k
    · subst h
      simp [dictGet]
    · simp only [dictGet, if_neg h, keys_cons, List.mem_cons, ih]
      constructor
      · intro hk hc
        rcases hc with hc | hc
        · exact h hc.symm
        · exact hk hc
      · intro hk hc
        exact hk (Or.inr hc)

theorem dictGet_dictSet_self (d : SourceRecord) (k : String) (v : JValue) :
    dictGet (dictSet d k v) k = some v := by
  induction d with
  | nil => simp [dictGet, dictSet]
  | cons hd tl ih =>
    obtain ⟨k', v'⟩ := hd
    by_cases h : k' = k <;> simp [dictGet, dictSet, h, ih]

theorem dictGet_dictSet_ne (d : SourceRecord) (k k' : String) (v : JValue)
    (h : k ≠ k') : dictGet (dictSet d k' v) k = dictGet d k := by
  have h' : k' ≠ k := Ne.symm h
  induction d with
  | nil => simp [dictGet, dictSet, h']
  | cons hd tl ih =>
    obtain ⟨k₀, v₀⟩ := hd
    by_cases h₀ : k₀ = k'
    · subst h₀
      simp [dictSet, dictGet, h']
    · simp only [dictSet, if_neg h₀]
      by_cases h₁ : k₀ = k <;> simp [dictGet, h₁, ih]

theorem dictGet_dictPop_ne (d : SourceRecord) (k k' : String)
    (h : k ≠ k') : dictGet (dictPop d k') k = dictGet d k := by
  induction d with
  | nil => simp [dictPop]
  | cons hd tl ih =>
    obtain ⟨k₀, v₀⟩ := hd
    by_cases h₀ : k₀ = k'
    · subst h₀
      simp [dictPop, dictGet, Ne.symm h]
    · simp only [dictPop, if_neg h₀]
      by_cases h₁ : k₀ = k <;> simp [dictGet, h₁, ih]

theorem mem_keys_dictSet (d : SourceRecord) (k a : String) (v : JValue) :
    a ∈ keys (dictSet d k v) ↔ a = k ∨ a ∈ keys d := by
  induction d with
  | nil => simp [dictSet]
  | cons hd tl ih =>
    obtain ⟨k', v'⟩ := hd
    by_cases h : k' = k
    · subst h
      simp [dictSet]
    · simp only [dictSet, if_neg h, keys_cons, List.mem_cons, ih]
      tauto

theorem nodup_keys_dictSet (d : SourceRecord) (k : String) (v : JValue)
    (h : (keys d).Nodup) : (keys (dictSet d k v)).Nodup := by
  induction d with
  | nil => simp [dictSet]
  | cons hd tl ih =>
    obtain ⟨k', v'⟩ := hd
    simp only [keys_cons, List.nodup_cons] at h
    by_cases hk : k' = k
    · subst hk
      simpa [dictSet] using h
    · simp only [dictSet, if_neg hk, keys_cons, List.nodup_cons]
      refine ⟨fun hmem => ?_, ih h.2⟩
      rcases (mem_keys_dictSet tl k k' v).mp hmem with h₁ | h₁
      · exact hk h₁
      · exact h.1 h₁

theorem keys_dictPop_sublist (d : SourceRecord) (k : String) :
    (keys (dictPop d k)).Sublist (keys d) := by
  induction d with
  | nil => simp [dictPop]
  | cons hd tl ih =>
    obtain ⟨k', v'⟩ := hd
    by_cases h : k' = k
    · simp only [dictPop, if_pos h, keys_cons]
      exact List.sublist_cons_self _ _
    · simp only [dictPop, if_neg h, keys_cons]
      exact ih.cons₂ k'

theorem nodup_keys_dictPop (d : SourceRecord) (k : String)
    (h : (keys d).Nodup) : (keys (dictPop d k)).Nodup :=
  (keys_dictPop_sublist d k).nodup h

theorem dictGet_dictPop_self (d : SourceRecord) (k : String)
    (h : (keys d).Nodup) : dictGet (dictPop d k) k = none := by
  induction d with
  | nil => simp [dictPop, dictGet]
  | cons hd tl ih =>
    obtain ⟨k', v'⟩ := hd
    simp only [keys_cons, List.nodup_cons] at h
    by_cases hk : k' = k
    · subst hk
      simp only [dictPop, if_pos rfl]
      exact (dictGet_eq_none_iff tl k').mpr h.1
    · simp only [dictPop, if_neg hk, dictGet]
      exact ih h.2

theorem dictSet_eq_of_get (d : SourceRecord) (k : String) (v : JValue)
    (h : dictGet d k = some v) : dictSet d k v = d := by
  induction d with
  | nil => simp [dictGet] at h
  | cons hd tl ih =>
    obtain ⟨k', v'⟩ := hd
    by_cases hk : k' = k
    · subst hk
      simp [dictGet] at h
      simp [dictSet, h]
    · simp only [dictGet, if_neg hk] at h
      simp [dictSet, hk, ih h]

theorem dictPop_eq_of_get_none (d : SourceRecord) (k : String)
    (h : dictGet d k = none) : dictPop d k = d := by
  induction d with
  | nil => rfl
  | cons hd tl ih =>
    obtain ⟨k', v'⟩ := hd
    by_cases hk : k' = k
    · subst hk
      simp [dictGet] at h
    · simp only [dictGet, if_neg hk] at h
      simp [dictPop, hk, ih h]

theorem dictSet_eq_append_of_get_none (d : SourceRecord) (k : String)
    (v : JValue) (h : dictGet d k = none) : dictSet d k v = d ++ [(k, v)] := by
  induction d with
  | nil => rfl
  | cons hd tl ih =>
    obtain ⟨k', v'⟩ := hd
    by_cases hk : k' = k
    · subst hk
      simp [dictGet] at h
    · simp only [dictGet, if_neg hk] at h
      simp [dictSet, hk, ih h]

/-! ## Step-level equations and inversions -/

theorem urlStep_of_get_none {H : HashLib} {f : String → Option Bytes}
    {s : SourceRecord} (h : dictGet s "url" = none) : urlStep H f s = .ok s := by
  unfold urlStep
  rw [h]

theorem urlStep_of_fetch {H : HashLib} {f : String → Option Bytes}
    {s : SourceRecord} {u : String} {d : Bytes}
    (hu : dictGet s "url" = some (JValue.str u)) (hf : f u = some d) :
    urlStep H f s =
      .ok (dictSet s "integrity"
        (JValue.str ("sha256-" ++ base64Encode (H.sha256 d)))) := by
  simp only [urlStep, hu, hf, integrity_sha256]

theorem urlStep_of_fetch_fail {H : HashLib} {f : String → Option Bytes}
    {s : SourceRecord} {u : String}
    (hu : dictGet s "url" = some (JValue.str u)) (hf : f u = none) :
    urlStep H f s = .error .fetchFailed := by
  simp only [urlStep, hu, hf]

theorem urlStep_ok_inv {H : HashLib} {f : String → Option Bytes}
    {s s' : SourceRecord} (h : urlStep H f s = .ok s') :
    (dictGet s "url" = none ∧ s' = s) ∨
    (∃ u archiveData, dictGet s "url" = some (JValue.str u) ∧
      f u = some archiveData ∧
      s' = dictSet s "integrity"
        (JValue.str ("sha256-" ++ base64Encode (H.sha256 archiveData)))) := by
  cases hget : dictGet s "url" with
  | none =>
    rw [urlStep_of_get_none hget] at h
    exact Or.inl ⟨rfl, (Except.ok.inj h).symm⟩
  | some v =>
    cases v with
    | str u =>
      cases hf : f u with
      | none =>
        rw [urlStep_of_fetch_fail hget hf] at h
        exact absurd h (by simp)
      | some archiveData =>
        rw [urlStep_of_fetch hget hf] at h
        exact Or.inr ⟨u, archiveData, rfl, hf, (Except.ok.inj h).symm⟩
    | null => simp [urlStep, hget] at h
    | bool b => simp [urlStep, hget] at h
    | num n => simp [urlStep, hget] at h
    | arr items => simp [urlStep, hget] at h
    | obj fields => simp [urlStep, hget] at h

theorem patchesStep_ok_inv {H : HashLib} {pd : Option (List PatchEntry)}
    {s s' : SourceRecord} (h : patchesStep H pd s = .ok s') :
    ((pd = none ∨ ∃ es, pd = some es ∧ es.filter (fun p => p.isFile) = []) ∧
      s' = dictPop s "patches") ∨
    (∃ es m, pd = some es ∧ es.filter (fun p => p.isFile) ≠ [] ∧
      buildPatchMap H (es.filter (fun p => p.isFile)) [] = .ok m ∧
      s' = dictSet s "patches" (JValue.obj m)) := by
  cases pd with
  | none =>
    exact Or.inl ⟨Or.inl rfl, (Except.ok.inj h).symm⟩
  | some es =>
    cases hfil : es.filter (fun p => p.isFile) with
    | nil =>
      simp only [patchesStep, hfil] at h
      exact Or.inl ⟨Or.inr ⟨es, rfl, hfil⟩, (Except.ok.inj h).symm⟩
    | cons f fs =>
      simp only [patchesStep, hfil] at h
      cases hb : buildPatchMap H (f :: fs) [] with
      | error e => simp [hb] at h
      | ok m =>
        simp only [hb] at h
        refine Or.inr ⟨es, m, rfl, by rw [hfil]; simp, ?_, (Except.ok.inj h).symm⟩
        rw [hfil]
        exact hb

theorem overlayStep_ok_inv {H : HashLib} {od : Option (List OverlayEntry)}
    {s s' : SourceRecord} (h : overlayStep H od s = .ok s') :
    ((od = none ∨ ∃ es, od = some es ∧ overlayFiles es = []) ∧
      s' = dictPop s "overlay") ∨
    (∃ es m, od = some es ∧ overlayFiles es ≠ [] ∧
      buildOverlayMap H (overlayFiles es) [] = .ok m ∧
      s' = dictSet s "overlay" (JValue.obj m)) := by
  cases od with
  | none =>
    exact Or.inl ⟨Or.inl rfl, (Except.ok.inj h).symm⟩
  | some es =>
    cases hfil : overlayFiles es with
    | nil =>
      simp only [overlayStep, hfil] at h
      exact Or.inl ⟨Or.inr ⟨es, rfl, hfil⟩, (Except.ok.inj h).symm⟩
    | cons f fs =>
      simp only [overlayStep, hfil] at h
      cases hb : buildOverlayMap H (f :: fs) [] with
      | error e => simp [hb] at h
      | ok m =>
        simp only [hb] at h
        refine Or.inr ⟨es, m, rfl, by rw [hfil]; simp, ?_, (Except.ok.inj h).symm⟩
        rw [hfil]
        exact hb

/-- The SRI sha256 digest string of a patch entry's bytes. -/
def patchDigest (H : HashLib) (f : PatchEntry) : JValue :=
  JValue.str ("sha256-" ++ base64Encode (H.sha256 (f.data.getD [])))

/-- The SRI sha256 digest string of an overlay entry's bytes. -/
def overlayDigest (H : HashLib) (f : OverlayEntry) : JValue :=
  JValue.str ("sha256-" ++ base64Encode (H.sha256 (f.data.getD [])))

theorem buildPatchMap_ok (H : HashLib) :
    ∀ (files : List PatchEntry) (acc m : SourceRecord),
    buildPatchMap H files acc = .ok m →
    (keys acc ++ files.map (fun f => f.name)).Nodup →
    m = acc ++ files.map (fun f => (f.name, patchDigest H f)) ∧
      ∀ f ∈ files, f.data ≠ none
  | [], acc, m, h, _ => by
    refine ⟨?_, by simp⟩
    simpa [buildPatchMap] using (Except.ok.inj h).symm
  | f :: fs, acc, m, h, hnd => by
    cases hd : f.data with
    | none => simp [buildPatchMap, hd] at h
    | some b =>
      simp only [buildPatchMap, hd, integrity_sha256] at h
      have hnotin : f.name ∉ keys acc := fun hmem =>
        (List.nodup_append.mp hnd).2.2 hmem (List.mem_cons_self _ _)
      have hset : dictSet acc f.name (JValue.str ("sha256-" ++ base64Encode (H.sha256 b))) =
          acc ++ [(f.name, JValue.str ("sha256-" ++ base64Encode (H.sha256 b)))] :=
        dictSet_eq_append_of_get_none _ _ _ ((dictGet_eq_none_iff acc f.name).mpr hnotin)
      have hnd' : (keys (acc ++ [(f.name, JValue.str ("sha256-" ++ base64Encode (H.sha256 b)))]) ++
          fs.map (fun f => f.name)).Nodup := by
        simpa [keys, List.append_assoc] using hnd
      have ih := buildPatchMap_ok H fs
        (acc ++ [(f.name, JValue.str ("sha256-" ++ base64Encode (H.sha256 b)))]) m
        (by rw [← hset]; exact h) hnd'
      refine ⟨?_, ?_⟩
      · rw [ih.1]
        simp [patchDigest, hd]
      · intro g hg
        rcases List.mem_cons.mp hg with hg | hg
        · subst hg
          simp [hd]
        · exact ih.2 g hg

theorem buildOverlayMap_ok (H : HashLib) :
    ∀ (files : List OverlayEntry) (acc m : SourceRecord),
    buildOverlayMap H files acc = .ok m →
    (keys acc ++ files.map overlayKey).Nodup →
    m = acc ++ files.map (fun f => (overlayKey f, overlayDigest H f)) ∧
      ∀ f ∈ files, f.data ≠ none
  | [], acc, m, h, _ => by
    refine ⟨?_, by simp⟩
    simpa [buildOverlayMap] using (Except.ok.inj h).symm
  | f :: fs, acc, m, h, hnd => by
    cases hd : f.data with
    | none => simp [buildOverlayMap, hd] at h
    | some b =>
      simp only [buildOverlayMap, hd, integrity_sha256] at h
      have hnotin : overlayKey f ∉ keys acc := fun hmem =>
        (List.nodup_append.mp hnd).2.2 hmem (List.mem_cons_self _ _)
      have hset : dictSet acc (overlayKey f)
          (JValue.str ("sha256-" ++ base64Encode (H.sha256 b))) =
          acc ++ [(overlayKey f, JValue.str ("sha256-" ++ base64Encode (H.sha256 b)))] :=
        dictSet_eq_append_of_get_none _ _ _ ((dictGet_eq_none_iff acc (overlayKey f)).mpr hnotin)
      have hnd' : (keys (acc ++ [(overlayKey f, JValue.str ("sha256-" ++ base64Encode (H.sha256 b)))]) ++
          fs.map overlayKey).Nodup := by
        simpa [keys, List.append_assoc] using hnd
      have ih := buildOverlayMap_ok H fs
        (acc ++ [(overlayKey f, JValue.str ("sha256-" ++ base64Encode (H.sha256 b)))]) m
        (by rw [← hset]; exact h) hnd'
      refine ⟨?_, ?_⟩
      · rw [ih.1]
        simp [overlayDigest, hd]
      · intro g hg
        rcases List.mem_cons.mp hg with hg | hg
        · subst hg
          simp [hd]
        · exact ih.2 g hg

/-! ## Preservation lemmas across the three reconciliation steps -/

theorem urlStep_get_ne {H : HashLib} {f : String → Option Bytes}
    {s s' : SourceRecord} (h : urlStep H f s = .ok s') {k : String}
    (hk : k ≠ "integrity") : dictGet s' k = dictGet s k := by
  rcases urlStep_ok_inv h with ⟨_, rfl⟩ | ⟨u, d, _, _, rfl⟩
  · rfl
  · exact dictGet_dictSet_ne _ _ _ _ hk

theorem patchesStep_get_ne {H : HashLib} {pd : Option (List PatchEntry)}
    {s s' : SourceRecord} (h : patchesStep H pd s = .ok s') {k : String}
    (hk : k ≠ "patches") : dictGet s' k = dictGet s k := by
  rcases patchesStep_ok_inv h with ⟨_, rfl⟩ | ⟨es, m, _, _, _, rfl⟩
  · exact dictGet_dictPop_ne _ _ _ hk
  · exact dictGet_dictSet_ne _ _ _ _ hk

theorem overlayStep_get_ne {H : HashLib} {od : Option (List OverlayEntry)}
    {s s' : SourceRecord} (h : overlayStep H od s = .ok s') {k : String}
    (hk : k ≠ "overlay") : dictGet s' k = dictGet s k := by
  rcases overlayStep_ok_inv h with ⟨_, rfl⟩ | ⟨es, m, _, _, _, rfl⟩
  · exact dictGet_dictPop_ne _ _ _ hk
  · exact dictGet_dictSet_ne _ _ _ _ hk

theorem urlStep_nodup {H : HashLib} {f : String → Option Bytes}
    {s s' : SourceRecord} (h : urlStep H f s = .ok s')
    (hnd : (keys s).Nodup) : (keys s').Nodup := by
  rcases urlStep_ok_inv h with ⟨_, rfl⟩ | ⟨u, d, _, _, rfl⟩
  · exact hnd
  · exact nodup_keys_dictSet _ _ _ hnd

theorem patchesStep_nodup {H : HashLib} {pd : Option (List PatchEntry)}
    {s s' : SourceRecord} (h : patchesStep H pd s = .ok s')
    (hnd : (keys s).Nodup) : (keys s').Nodup := by
  rcases patchesStep_ok_inv h with ⟨_, rfl⟩ | ⟨es, m, _, _, _, rfl⟩
  · exact nodup_keys_dictPop _ _ hnd
  · exact nodup_keys_dictSet _ _ _ hnd

theorem overlayStep_nodup {H : HashLib} {od : Option (List OverlayEntry)}
    {s s' : SourceRecord} (h : overlayStep H od s = .ok s')
    (hnd : (keys s).Nodup) : (keys s').Nodup := by
  rcases overlayStep_ok_inv h with ⟨_, rfl⟩ | ⟨es, m, _, _, _, rfl⟩
  · exact nodup_keys_dictPop _ _ hnd
  · exact nodup_keys_dictSet _ _ _ hnd

/-! ## Equations and inversion for `update_integrity` -/

theorem update_of_not_exists {H : HashLib} {f : String → Option Bytes}
    {st : VersionState} (hv : st.versionExists = false) :
    update_integrity H f st = .error .notFound := by
  unfold update_integrity
  simp [hv]

theorem update_of_source_none {H : HashLib} {f : String → Option Bytes}
    {st : VersionState} (hv : st.versionExists = true) (hs : st.source = none) :
    update_integrity H f st = .error .sourceMissing := by
  unfold update_integrity
  simp [hv, hs]

theorem update_of_source_bad {H : HashLib} {f : String → Option Bytes}
    {st : VersionState} (hv : st.versionExists = true)
    (hs : st.source = some none) :
    update_integrity H f st = .error .parseError := by
  unfold update_integrity
  simp [hv, hs]

theorem update_of_urlStep_error {H : HashLib} {f : String → Option Bytes}
    {st : VersionState} {s0 : SourceRecord} {e : UpdErr}
    (hv : st.versionExists = true) (hs : st.source = some (some s0))
    (hu : urlStep H f s0 = .error e) :
    update_integrity H f st = .error e := by
  unfold update_integrity
  simp [hv, hs, hu]

theorem update_after_url {H : HashLib} {f : String → Option Bytes}
    {st : VersionState} {s0 s1 : SourceRecord}
    (hv : st.versionExists = true) (hs : st.source = some (some s0))
    (hu : urlStep H f s0 = .ok s1) :
    update_integrity H f st =
      match patchesStep H st.patchesDir s1 with
      | .error e => .error e
      | .ok s2 => overlayStep H st.overlayDir s2 := by
  unfold update_integrity
  simp [hv, hs, hu]

theorem update_integrity_ok_inv {H : HashLib} {f : String → Option Bytes}
    {st : VersionState} {r : SourceRecord}
    (h : update_integrity H f st = .ok r) :
    st.versionExists = true ∧ ∃ s0 s1 s2, st.source = some (some s0) ∧
      urlStep H f s0 = .ok s1 ∧ patchesStep H st.patchesDir s1 = .ok s2 ∧
      overlayStep H st.overlayDir s2 = .ok r := by
  unfold update_integrity at h
  cases hv : st.versionExists with
  | false => simp [hv] at h
  | true =>
    simp only [hv, if_true] at h
    cases hs : st.source with
    | none => simp [hs] at h
    | some so =>
      cases so with
      | none => simp [hs] at h
      | some s0 =>
        simp only [hs] at h
        cases hu : urlStep H f s0 with
        | error e => simp [hu] at h
        | ok s1 =>
          simp only [hu] at h
          cases hp : patchesStep H st.patchesDir s1 with
          | error e => simp [hp] at h
          | ok s2 =>
            simp only [hp] at h
            exact ⟨rfl, s0, s1, s2, rfl, hu, hp, h⟩

theorem runUpdate_of_error {H : HashLib} {f : String → Option Bytes}
    {st : VersionState} {e : UpdErr}
    (h : update_integrity H f st = .error e) : runUpdate H f st = st := by
  unfold runUpdate
  rw [h]

theorem runUpdate_of_ok {H : HashLib} {f : String → Option Bytes}
    {st : VersionState} {r : SourceRecord}
    (h : update_integrity H f st = .ok r) :
    runUpdate H f st = { st with source := some (some r) } := by
  unfold runUpdate
  rw [h]

/-! ## The SRI output format -/

/-- One character of the class `[A-Za-z0-9+/]`. -/
def isB64Char (c : Char) : Bool :=
  (decide ('A' ≤ c) && decide (c ≤ 'Z')) ||
  (decide ('a' ≤ c) && decide (c ≤ 'z')) ||
  (decide ('0' ≤ c) && decide (c ≤ '9')) || c == '+' || c == '/'

/-- `=*`: only padding characters. -/
def padOnly : List Char → Bool
  | [] => true
  | c :: cs => c == '=' && padOnly cs

/-- `[A-Za-z0-9+/]*=*`. -/
def b64ThenPad : List Char → Bool
  | [] => true
  | c :: cs => if isB64Char c then b64ThenPad cs else padOnly (c :: cs)

/-- `[A-Za-z0-9+/]+=*`: at least one base64 character, then padding. -/
def sriTailOK : List Char → Bool
  | [] => false
  | c :: cs => isB64Char c && b64ThenPad cs

/-- The regular expression `^(sha224|sha256|sha384|sha512)-[A-Za-z0-9+/]+=*$`
as an executable checker. -/
def sriPattern (s : String) : Bool :=
  (String.mk (s.data.takeWhile (fun c => c != '-')) == "sha224" ||
    String.mk (s.data.takeWhile (fun c => c != '-')) == "sha256" ||
    String.mk (s.data.takeWhile (fun c => c != '-')) == "sha384" ||
    String.mk (s.data.takeWhile (fun c => c != '-')) == "sha512") &&
  match s.data.dropWhile (fun c => c != '-') with
  | '-' :: tail => sriTailOK tail
  | _ => false

theorem isB64Char_b64Char (n : Nat) : isB64Char (b64Char n) = true := by
  have hlt : n % 64 < 64 := Nat.mod_lt _ (by norm_num)
  have hall : ∀ m, m < 64 → isB64Char (base64Alphabet.getD m 'A') = true := by decide
  exact hall _ hlt

theorem isB64Char_eqChar : isB64Char '=' = false := by decide

theorem b64ThenPad_encode : ∀ bs : Bytes, b64ThenPad (base64EncodeL bs) = true
  | [] => rfl
  | [b0] => by
    simp [base64EncodeL, b64ThenPad, isB64Char_b64Char, isB64Char_eqChar,
      padOnly]
  | [b0, b1] => by
    simp [base64EncodeL, b64ThenPad, isB64Char_b64Char, isB64Char_eqChar,
      padOnly]
  | b0 :: b1 :: b2 :: rest => by
    have ih := b64ThenPad_encode rest
    simp [base64EncodeL, b64ThenPad, isB64Char_b64Char, ih]

theorem sriTailOK_encode (bs : Bytes) (h : bs ≠ []) :
    sriTailOK (base64EncodeL bs) = true := by
  match bs with
  | [] => exact absurd rfl h
  | [b0] =>
    simp [base64EncodeL, sriTailOK, isB64Char_b64Char, isB64Char_eqChar,
      b64ThenPad, padOnly]
  | [b0, b1] =>
    simp [base64EncodeL, sriTailOK, isB64Char_b64Char, isB64Char_eqChar,
      b64ThenPad, padOnly]
  | b0 :: b1 :: b2 :: rest =>
    simp [base64EncodeL, sriTailOK, isB64Char_b64Char, b64ThenPad,
      b64ThenPad_encode rest]

theorem takeWhile_append_stop {p : Char → Bool} (l1 l2 : List Char) (c : Char)
    (h1 : ∀ a ∈ l1, p a = true) (hc : p c = false) :
    (l1 ++ c :: l2).takeWhile p = l1 := by
  induction l1 with
  | nil => simp [List.takeWhile, hc]
  | cons a l ih =>
    have ha := h1 a (by simp)
    simp [List.takeWhile, ha, ih (fun x hx => h1 x (by simp [hx]))]

theorem dropWhile_append_stop {p : Char → Bool} (l1 l2 : List Char) (c : Char)
    (h1 : ∀ a ∈ l1, p a = true) (hc : p c = false) :
    (l1 ++ c :: l2).dropWhile p = c :: l2 := by
  induction l1 with
  | nil => simp [List.dropWhile, hc]
  | cons a l ih =>
    have ha := h1 a (by simp)
    simp [List.dropWhile, ha, ih (fun x hx => h1 x (by simp [hx]))]

theorem sriPattern_build (alg : String) (d : Bytes)
    (halg : alg = "sha224" ∨ alg = "sha256" ∨ alg = "sha384" ∨ alg = "sha512")
    (hne : d ≠ []) : sriPattern (alg ++ "-" ++ base64Encode d) = true := by
  have hnotdash : ∀ a ∈ alg.data, (a != '-') = true := by
    rcases halg with h | h | h | h <;> subst h <;> decide
  have hcs : (alg ++ "-" ++ base64Encode d).data =
      alg.data ++ '-' :: base64EncodeL d := by
    rw [String.data_append, String.data_append]
    show alg.data ++ "-".data ++ base64EncodeL d = _
    simp [show "-".data = ['-'] from rfl]
  unfold sriPattern
  rw [hcs, takeWhile_append_stop _ _ _ hnotdash (by decide),
    dropWhile_append_stop _ _ _ hnotdash (by decide)]
  have halgeq : (String.mk alg.data == "sha224" ||
      String.mk alg.data == "sha256" || String.mk alg.data == "sha384" ||
      String.mk alg.data == "sha512") = true := by
    rcases halg with h | h | h | h <;> subst h <;> decide
  simp [halgeq, sriTailOK_encode d hne]

/-! ## Concrete fixtures used to instantiate theorems -/

/-- A stand-in hash family with the digest sizes of sha224/256/384/512. -/
def testHashLib : HashLib :=
  ⟨fun _ => List.replicate 28 0, fun _ => List.replicate 32 0,
   fun _ => List.replicate 48 0, fun _ => List.replicate 64 0⟩

/-- A fetch collaborator that always succeeds with empty content
(`file:///dev/null`). -/
def emptyFetch : String → Option Bytes := fun _ => some []

/-- A fetch collaborator that always fails. -/
def noFetch : String → Option Bytes := fun _ => none

/-- The sha256 SRI string `testHashLib` yields for any input. -/
def zeroDigest : String := "sha256-AAAAAAAAAAAAAAAAAAAAAAAAAAAAAAAAAAAAAAAAAAA="

/-- The Source Record of the repository's own test scenario. -/
def testSrc : SourceRecord :=
  [("url", JValue.str "file:///dev/null"),
   ("integrity", JValue.str "old-invalid-hash"),
   ("strip_prefix", JValue.str "testmod-1.0.0")]

/-- One patch file, as in the repository's own test scenario. -/
def testPatches : List PatchEntry := [⟨"test.patch", true, some [1, 2, 3]⟩]

/-- Two overlay files, as in the repository's own test scenario. -/
def testOverlay : List OverlayEntry :=
  [⟨["BUILD.bazel"], true, some [4]⟩, ⟨["MODULE.bazel"], true, some [5]⟩]

/-- The version state of the repository's own test scenario. -/
def testSt : VersionState :=
  ⟨true, some (some testSrc), some testPatches, some testOverlay⟩

/-- The record `update_integrity` writes for `testSt` under `testHashLib`. -/
def testOut : SourceRecord :=
  [("url", JValue.str "file:///dev/null"),
   ("integrity", JValue.str zeroDigest),
   ("strip_prefix", JValue.str "testmod-1.0.0"),
   ("patches", JValue.obj [("test.patch", JValue.str zeroDigest)]),
   ("overlay", JValue.obj [("BUILD.bazel", JValue.str zeroDigest),
                           ("MODULE.bazel", JValue.str zeroDigest)])]

/-! ## Claim theorems -/

/-- **C5**: for every byte sequence and every algorithm in
`{sha224, sha256, sha384, sha512}` (whose digests have the documented sizes
28/32/48/64 bytes), `integrity` returns the string
`"<algorithm>-<base64-of-raw-digest-bytes>"` in the standard padded base64
alphabet, matching `^(sha224|sha256|sha384|sha512)-[A-Za-z0-9+/]+=*$`, and
the result is unique (the function is pure, hence two calls on identical
input agree). -/
theorem integrity_sri_format (H : HashLib) (data : Bytes) (algorithm : String)
    (h224 : (H.sha224 data).length = 28) (h256 : (H.sha256 data).length = 32)
    (h384 : (H.sha384 data).length = 48) (h512 : (H.sha512 data).length = 64)
    (halg : algorithm = "sha224" ∨ algorithm = "sha256" ∨
      algorithm = "sha384" ∨ algorithm = "sha512") :
    ∃ s, integrity H data algorithm = .ok s ∧
      s = algorithm ++ "-" ++ base64Encode (hashlibDispatch H algorithm data) ∧
      sriPattern s = true ∧
      ∀ s2, integrity H data algorithm = .ok s2 → s2 = s := by
  have hok : integrity H data algorithm =
      .ok (algorithm ++ "-" ++ base64Encode (hashlibDispatch H algorithm data)) := by
    unfold integrity
    rw [if_pos halg]
  refine ⟨_, hok, rfl, ?_, fun s2 h2 => (Except.ok.inj (hok.symm.trans h2)).symm⟩
  have hne : hashlibDispatch H algorithm data ≠ [] := by
    intro hnil
    rcases halg with h | h | h | h <;> subst h <;>
      simp only [hashlibDispatch] at hnil <;> simp at hnil
    · rw [hnil] at h224; simp at h224
    · rw [hnil] at h256; simp at h256
    · rw [hnil] at h384; simp at h384
    · rw [hnil] at h512; simp at h512
  exact sriPattern_build algorithm _ halg hne

/-- Witness for C5 at `data = []`, `algorithm = "sha256"`. -/
theorem integrity_sri_format_witness :
    (testHashLib.sha224 []).length = 28 ∧ (testHashLib.sha256 []).length = 32 ∧
    (testHashLib.sha384 []).length = 48 ∧ (testHashLib.sha512 []).length = 64 ∧
    (∃ s, integrity testHashLib [] "sha256" = .ok s ∧
      s = "sha256" ++ "-" ++ base64Encode (hashlibDispatch testHashLib "sha256" []) ∧
      sriPattern s = true ∧
      ∀ s2, integrity testHashLib [] "sha256" = .ok s2 → s2 = s) :=
  ⟨by decide, by decide, by decide, by decide,
   integrity_sri_format testHashLib [] "sha256" (by decide) (by decide)
     (by decide) (by decide) (Or.inr (Or.inl rfl))⟩

/-- **C7**: for every byte sequence and every algorithm name outside
`{sha224, sha256, sha384, sha512}`, `integrity` fails with the named
`unsupportedAlgorithm` error (the Python `assert`), before any I/O — the
function is pure and the check precedes the hash dispatch. -/
theorem integrity_unsupported_algorithm (H : HashLib) (data : Bytes)
    (algorithm : String)
    (h : ¬(algorithm = "sha224" ∨ algorithm = "sha256" ∨
      algorithm = "sha384" ∨ algorithm = "sha512")) :
    integrity H data algorithm = .error .unsupportedAlgorithm := by
  unfold integrity
  rw [if_neg h]

/-- Witness for C7 at `algorithm = "md5"`. -/
theorem integrity_unsupported_algorithm_witness :
    ¬("md5" = "sha224" ∨ "md5" = "sha256" ∨ "md5" = "sha384" ∨
      "md5" = "sha512") ∧
    integrity testHashLib [] "md5" = .error .unsupportedAlgorithm :=
  ⟨by decide, integrity_unsupported_algorithm testHashLib [] "md5" (by decide)⟩

/-- **C3**: every failing invocation of `update_integrity` — the pair does
not exist, the Source Record is missing or unparsable, the fetch fails, or a
patch/overlay read fails — performs no write: the state is unchanged
(`json_dump` is only reached after every step succeeded).  The extra
conjuncts pin the errors of the explicitly listed early failures. -/
theorem updateIntegrity_failure_no_write (H : HashLib)
    (f : String → Option Bytes) (st : VersionState) :
    (∀ e : UpdErr, update_integrity H f st = .error e → runUpdate H f st = st) ∧
    (st.versionExists = false → update_integrity H f st = .error .notFound) ∧
    (st.versionExists = true → st.source = none →
      update_integrity H f st = .error .sourceMissing) ∧
    (st.versionExists = true → st.source = some none →
      update_integrity H f st = .error .parseError) :=
  ⟨fun _ h => runUpdate_of_error h,
   fun hv => update_of_not_exists hv,
   fun hv hs => update_of_source_none hv hs,
   fun hv hs => update_of_source_bad hv hs⟩

/-- Witness for C3: a missing module/version pair fails with `notFound` and
leaves the state untouched. -/
theorem updateIntegrity_failure_no_write_witness :
    update_integrity testHashLib noFetch ⟨false, none, none, none⟩ =
      .error .notFound ∧
    runUpdate testHashLib noFetch ⟨false, none, none, none⟩ =
      ⟨false, none, none, none⟩ :=
  ⟨(updateIntegrity_failure_no_write testHashLib noFetch
      ⟨false, none, none, none⟩).2.1 rfl,
   (updateIntegrity_failure_no_write testHashLib noFetch
      ⟨false, none, none, none⟩).1 .notFound
     ((updateIntegrity_failure_no_write testHashLib noFetch
        ⟨false, none, none, none⟩).2.1 rfl)⟩

/-- **C4**: a successful `update_integrity` leaves every field other than
`integrity`, `patches` and `overlay` in the record, with its value
unmodified. -/
theorem updateIntegrity_preserves_unrelated_fields (H : HashLib)
    (f : String → Option Bytes) (st : VersionState) (s0 r : SourceRecord)
    (k : String) (hs : st.source = some (some s0))
    (hk1 : k ≠ "integrity") (hk2 : k ≠ "patches") (hk3 : k ≠ "overlay")
    (h : update_integrity H f st = .ok r) :
    dictGet r k = dictGet s0 k := by
  obtain ⟨hv, t0, s1, s2, hs', hu, hp, ho⟩ := update_integrity_ok_inv h
  rw [hs] at hs'
  obtain rfl : s0 = t0 := Option.some.inj (Option.some.inj hs')
  calc dictGet r k = dictGet s2 k := overlayStep_get_ne ho hk3
    _ = dictGet s1 k := patchesStep_get_ne hp hk2
    _ = dictGet s0 k := urlStep_get_ne hu hk1

/-- Witness for C4 on the repository's own test scenario: the
`strip_prefix` field survives an update unchanged. -/
theorem updateIntegrity_preserves_unrelated_fields_witness :
    testSt.source = some (some testSrc) ∧
    update_integrity testHashLib emptyFetch testSt = .ok testOut ∧
    dictGet testOut "strip_prefix" = dictGet testSrc "strip_prefix" :=
  ⟨rfl, rfl,
   updateIntegrity_preserves_unrelated_fields testHashLib emptyFetch testSt
     testSrc testOut "strip_prefix" rfl (by decide) (by decide) (by decide)
     rfl⟩

/-- Counterexample for C6 as stated: a record with an `integrity` field but
no `url` field still has its (stale) `integrity` field after a successful
update — the code never removes `integrity`. -/
theorem integrity_without_url_kept_cex :
    update_integrity testHashLib noFetch
      ⟨true, some (some [("integrity", JValue.str "old-invalid-hash")]),
        none, none⟩ =
      .ok [("integrity", JValue.str "old-invalid-hash")] ∧
    dictGet [("integrity", JValue.str "old-invalid-hash")] "url" = none ∧
    dictGet [("integrity", JValue.str "old-invalid-hash")] "integrity" =
      some (JValue.str "old-invalid-hash") :=
  ⟨rfl, rfl, rfl⟩

/-- **C6 (amended)**: after a successful `update_integrity`, the `url` field
is exactly as in the input record; when `url` is absent, the `integrity`
field is left byte-for-byte untouched (same presence, same value) rather
than removed; when `url` is present (necessarily a string, fetched to bytes
`d`), `integrity` is set to the fresh sha256 archive digest of `d`; hence
`integrity` is present iff `url` is present or `integrity` was already
present in the input. -/
theorem updateIntegrity_integrity_presence (H : HashLib)
    (f : String → Option Bytes) (st : VersionState) (s0 r : SourceRecord)
    (hs : st.source = some (some s0))
    (h : update_integrity H f st = .ok r) :
    dictGet r "url" = dictGet s0 "url" ∧
    (dictGet s0 "url" = none →
      dictGet r "integrity" = dictGet s0 "integrity") ∧
    (∀ u d, dictGet s0 "url" = some (JValue.str u) → f u = some d →
      dictGet r "integrity" =
        some (JValue.str ("sha256-" ++ base64Encode (H.sha256 d)))) ∧
    (dictGet r "integrity").isSome =
      ((dictGet s0 "url").isSome || (dictGet s0 "integrity").isSome) := by
  obtain ⟨hv, t0, s1, s2, hs', hu, hp, ho⟩ := update_integrity_ok_inv h
  rw [hs] at hs'
  obtain rfl : s0 = t0 := Option.some.inj (Option.some.inj hs')
  have hint : dictGet r "integrity" = dictGet s1 "integrity" :=
    (overlayStep_get_ne ho (by decide)).trans (patchesStep_get_ne hp (by decide))
  have hurl1 : dictGet r "url" = dictGet s1 "url" :=
    (overlayStep_get_ne ho (by decide)).trans (patchesStep_get_ne hp (by decide))
  rcases urlStep_ok_inv hu with ⟨hnone, rfl⟩ | ⟨u, d, hget, hf, rfl⟩
  · refine ⟨hurl1, fun _ => hint, fun u d hget _ => ?_, ?_⟩
    · rw [hnone] at hget
      exact absurd hget (by simp)
    · rw [hint, hnone]
      simp
  · have hurl : dictGet r "url" = dictGet s0 "url" :=
      hurl1.trans (dictGet_dictSet_ne _ _ _ _ (by decide))
    have hfresh : dictGet r "integrity" =
        some (JValue.str ("sha256-" ++ base64Encode (H.sha256 d))) := by
      rw [hint, dictGet_dictSet_self]
    refine ⟨hurl, fun hnone => ?_, fun u' d' hget' hf' => ?_, ?_⟩
    · rw [hget] at hnone
      exact absurd hnone (by simp)
    · obtain rfl : u' = u :=
        JValue.str.inj (Option.some.inj (hget'.symm.trans hget))
      obtain rfl : d' = d := Option.some.inj (hf'.symm.trans hf)
      exact hfresh
    · rw [hfresh, hget]
      simp

/-- Witness for the amended C6 on the test scenario (`url` present): the
rewritten `integrity` value is exactly the fresh digest of the fetched
bytes. -/
theorem updateIntegrity_integrity_presence_witness :
    testSt.source = some (some testSrc) ∧
    update_integrity testHashLib emptyFetch testSt = .ok testOut ∧
    dictGet testOut "url" = dictGet testSrc "url" ∧
    (∀ u d, dictGet testSrc "url" = some (JValue.str u) →
      emptyFetch u = some d →
      dictGet testOut "integrity" =
        some (JValue.str ("sha256-" ++ base64Encode (testHashLib.sha256 d)))) ∧
    (dictGet testOut "integrity").isSome =
      ((dictGet testSrc "url").isSome || (dictGet testSrc "integrity").isSome) :=
  ⟨rfl, rfl,
   (updateIntegrity_integrity_presence testHashLib emptyFetch testSt testSrc
      testOut rfl rfl).1,
   (updateIntegrity_integrity_presence testHashLib emptyFetch testSt testSrc
      testOut rfl rfl).2.2.1,
   (updateIntegrity_integrity_presence testHashLib emptyFetch testSt testSrc
      testOut rfl rfl).2.2.2⟩

/-- **C1**: on every successful `update_integrity` (with well-formed inputs:
unique record keys and unique file names/relative paths, as on a real
filesystem), the fresh `patches` mapping is exactly the immediate regular
files of the Patch Set directory, each mapped to the sha256 SRI digest of its
current bytes; the fresh `overlay` mapping is exactly the recursively listed
regular files of the Overlay Set whose base name is not the excluded lock
filename, keyed by relative path; and when a set directory is absent or
contributes no files, the corresponding field is absent from the record. -/
theorem updateIntegrity_reconciliation (H : HashLib)
    (f : String → Option Bytes) (st : VersionState) (s0 r : SourceRecord)
    (hs : st.source = some (some s0)) (hnd : (keys s0).Nodup)
    (hpn : ∀ es, st.patchesDir = some es →
      ((es.filter (fun p => p.isFile)).map (fun p => p.name)).Nodup)
    (hon : ∀ es, st.overlayDir = some es →
      ((overlayFiles es).map overlayKey).Nodup)
    (h : update_integrity H f st = .ok r) :
    (∀ es, st.patchesDir = some es → es.filter (fun p => p.isFile) ≠ [] →
      dictGet r "patches" = some (JValue.obj
        ((es.filter (fun p => p.isFile)).map
          (fun p => (p.name, patchDigest H p)))) ∧
      ∀ p ∈ es.filter (fun p => p.isFile), p.data ≠ none) ∧
    ((st.patchesDir = none ∨
        ∃ es, st.patchesDir = some es ∧ es.filter (fun p => p.isFile) = []) →
      dictGet r "patches" = none) ∧
    (∀ es, st.overlayDir = some es → overlayFiles es ≠ [] →
      dictGet r "overlay" = some (JValue.obj
        ((overlayFiles es).map (fun e => (overlayKey e, overlayDigest H e)))) ∧
      ∀ e ∈ overlayFiles es, e.data ≠ none) ∧
    ((st.overlayDir = none ∨
        ∃ es, st.overlayDir = some es ∧ overlayFiles es = []) →
      dictGet r "overlay" = none) := by
  obtain ⟨hv, t0, s1, s2, hs', hu, hp, ho⟩ := update_integrity_ok_inv h
  rw [hs] at hs'
  obtain rfl : s0 = t0 := Option.some.inj (Option.some.inj hs')
  have hnd1 : (keys s1).Nodup := urlStep_nodup hu hnd
  have hnd2 : (keys s2).Nodup := patchesStep_nodup hp hnd1
  refine ⟨?_, ?_, ?_, ?_⟩
  · intro es hes hne
    rcases patchesStep_ok_inv hp with ⟨hcase, rfl⟩ | ⟨es', m, hes', hne', hb, rfl⟩
    · rcases hcase with hnone | ⟨es'', hes'', hfil''⟩
      · rw [hes] at hnone
        exact absurd hnone (by simp)
      · rw [hes] at hes''
        obtain rfl : es = es'' := Option.some.inj hes''
        exact absurd hfil'' hne
    · rw [hes] at hes'
      obtain rfl : es = es' := Option.some.inj hes'
      obtain ⟨hm, hdata⟩ := buildPatchMap_ok H _ _ _ hb
        (by simpa using hpn es hes)
      subst hm
      refine ⟨?_, hdata⟩
      rw [overlayStep_get_ne ho (by decide), dictGet_dictSet_self]
      simp
  · intro hcase0
    rcases patchesStep_ok_inv hp with ⟨_, rfl⟩ | ⟨es', m, hes', hne', hb, rfl⟩
    · rw [overlayStep_get_ne ho (by decide)]
      exact dictGet_dictPop_self _ _ hnd1
    · rcases hcase0 with hnone | ⟨es, hes, hfil⟩
      · rw [hnone] at hes'
        exact absurd hes' (by simp)
      · rw [hes] at hes'
        obtain rfl : es = es' := Option.some.inj hes'
        exact absurd hfil hne'
  · intro es hes hne
    rcases overlayStep_ok_inv ho with ⟨hcase, rfl⟩ | ⟨es', m, hes', hne', hb, rfl⟩
    · rcases hcase with hnone | ⟨es'', hes'', hfil''⟩
      · rw [hes] at hnone
        exact absurd hnone (by simp)
      · rw [hes] at hes''
        obtain rfl : es = es'' := Option.some.inj hes''
        exact absurd hfil'' hne
    · rw [hes] at hes'
      obtain rfl : es = es' := Option.some.inj hes'
      obtain ⟨hm, hdata⟩ := buildOverlayMap_ok H _ _ _ hb
        (by simpa using hon es hes)
      subst hm
      refine ⟨?_, hdata⟩
      rw [dictGet_dictSet_self]
      simp
  · intro hcase0
    rcases overlayStep_ok_inv ho with ⟨_, rfl⟩ | ⟨es', m, hes', hne', hb, rfl⟩
    · exact dictGet_dictPop_self _ _ hnd2
    · rcases hcase0 with hnone | ⟨es, hes, hfil⟩
      · rw [hnone] at hes'
        exact absurd hes' (by simp)
      · rw [hes] at hes'
        obtain rfl : es = es' := Option.some.inj hes'
        exact absurd hfil hne'

/-- Witness for C1 on the repository's own test scenario. -/
theorem updateIntegrity_reconciliation_witness :
    testSt.source = some (some testSrc) ∧ (keys testSrc).Nodup ∧
    update_integrity testHashLib emptyFetch testSt = .ok testOut ∧
    dictGet testOut "patches" = some (JValue.obj
      ((testPatches.filter (fun p => p.isFile)).map
        (fun p => (p.name, patchDigest testHashLib p)))) ∧
    dictGet testOut "overlay" = some (JValue.obj
      ((overlayFiles testOverlay).map
        (fun e => (overlayKey e, overlayDigest testHashLib e)))) :=
  ⟨rfl, by decide, rfl,
   ((updateIntegrity_reconciliation testHashLib emptyFetch testSt testSrc
      testOut rfl (by decide) (fun es hes => by cases hes; decide)
      (fun es hes => by cases hes; decide) rfl).1 testPatches rfl
      (by decide)).1,
   ((updateIntegrity_reconciliation testHashLib emptyFetch testSt testSrc
      testOut rfl (by decide) (fun es hes => by cases hes; decide)
      (fun es hes => by cases hes; decide) rfl).2.2.1 testOverlay rfl
      (by decide)).1⟩

/-- **C2**: immediately re-running `update_integrity` after a successful run,
with the same directory listings and the same fetched archive bytes, succeeds
and produces the very same record, hence `json_dump` writes a byte-identical
`source.json` (same key order, same formatting). -/
theorem updateIntegrity_idempotent (H : HashLib) (f : String → Option Bytes)
    (st : VersionState) (s0 r : SourceRecord)
    (hs : st.source = some (some s0)) (hnd : (keys s0).Nodup)
    (h : update_integrity H f st = .ok r) :
    update_integrity H f (runUpdate H f st) = .ok r ∧
    ∀ r2, update_integrity H f (runUpdate H f st) = .ok r2 →
      json_dump r2 = json_dump r := by
  obtain ⟨hv, t0, s1, s2, hs', hu, hp, ho⟩ := update_integrity_ok_inv h
  rw [hs] at hs'
  obtain rfl : s0 = t0 := Option.some.inj (Option.some.inj hs')
  have hnd1 : (keys s1).Nodup := urlStep_nodup hu hnd
  have hnd2 : (keys s2).Nodup := patchesStep_nodup hp hnd1
  have hget_po : ∀ k, k ≠ "patches" → k ≠ "overlay" →
      dictGet r k = dictGet s1 k := fun k h1 h2 =>
    (overlayStep_get_ne ho h2).trans (patchesStep_get_ne hp h1)
  have hu2 : urlStep H f r = .ok r := by
    rcases urlStep_ok_inv hu with ⟨hnone, rfl⟩ | ⟨u, d, hget, hf, rfl⟩
    · exact urlStep_of_get_none
        ((hget_po "url" (by decide) (by decide)).trans hnone)
    · have hru : dictGet r "url" = some (JValue.str u) := by
        rw [hget_po "url" (by decide) (by decide),
          dictGet_dictSet_ne _ _ _ _ (by decide)]
        exact hget
      have hri : dictGet r "integrity" =
          some (JValue.str ("sha256-" ++ base64Encode (H.sha256 d))) := by
        rw [hget_po "integrity" (by decide) (by decide), dictGet_dictSet_self]
      rw [urlStep_of_fetch hru hf, dictSet_eq_of_get _ _ _ hri]
  have hp2 : patchesStep H st.patchesDir r = .ok r := by
    rcases patchesStep_ok_inv hp with ⟨hcase, rfl⟩ | ⟨es, m, hes, hne, hb, rfl⟩
    · have hrp : dictGet r "patches" = none := by
        rw [overlayStep_get_ne ho (by decide)]
        exact dictGet_dictPop_self _ _ hnd1
      rcases hcase with hnone | ⟨es, hes, hfil⟩
      · rw [hnone]
        simp only [patchesStep]
        rw [dictPop_eq_of_get_none _ _ hrp]
      · rw [hes]
        simp only [patchesStep, hfil]
        rw [dictPop_eq_of_get_none _ _ hrp]
    · have hrp : dictGet r "patches" = some (JValue.obj m) := by
        rw [overlayStep_get_ne ho (by decide), dictGet_dictSet_self]
      rw [hes]
      cases hfil : es.filter (fun p => p.isFile) with
      | nil => exact absurd hfil hne
      | cons g gs =>
        rw [hfil] at hb
        simp only [patchesStep, hfil, hb]
        rw [dictSet_eq_of_get _ _ _ hrp]
  have ho2 : overlayStep H st.overlayDir r = .ok r := by
    rcases overlayStep_ok_inv ho with ⟨hcase, rfl⟩ | ⟨es, m, hes, hne, hb, rfl⟩
    · have hro : dictGet (dictPop s2 "overlay") "overlay" = none :=
        dictGet_dictPop_self _ _ hnd2
      rcases hcase with hnone | ⟨es, hes, hfil⟩
      · rw [hnone]
        simp only [overlayStep]
        rw [dictPop_eq_of_get_none _ _ hro]
      · rw [hes]
        simp only [overlayStep, hfil]
        rw [dictPop_eq_of_get_none _ _ hro]
    · have hro : dictGet (dictSet s2 "overlay" (JValue.obj m)) "overlay" =
          some (JValue.obj m) := dictGet_dictSet_self _ _ _
      rw [hes]
      cases hfil : overlayFiles es with
      | nil => exact absurd hfil hne
      | cons g gs =>
        rw [hfil] at hb
        simp only [overlayStep, hfil, hb]
        rw [dictSet_eq_of_get _ _ _ hro]
  have hrun : update_integrity H f (runUpdate H f st) = .ok r := by
    rw [runUpdate_of_ok h]
    rw [@update_after_url H f { st with source := some (some r) } r r hv rfl hu2]
    simp only [hp2]
    exact ho2
  exact ⟨hrun, fun r2 h2 => by
    have hr : r = r2 := Except.ok.inj (hrun.symm.trans h2)
    rw [← hr]⟩

/-- Witness for C2 on the repository's own test scenario. -/
theorem updateIntegrity_idempotent_witness :
    testSt.source = some (some testSrc) ∧ (keys testSrc).Nodup ∧
    update_integrity testHashLib emptyFetch testSt = .ok testOut ∧
    update_integrity testHashLib emptyFetch
      (runUpdate testHashLib emptyFetch testSt) = .ok testOut :=
  ⟨rfl, by decide, rfl,
   (updateIntegrity_idempotent testHashLib emptyFetch testSt testSrc testOut
      rfl (by decide) rfl).1⟩

/-- **C9**: when the Overlay Set directory exists and every regular file in
it (at any depth) has base name `"MODULE.bazel.lock"` — the fixed literal the
code excludes — a successful update is exactly the empty-directory case: no
file survives the filter and the `overlay` field is removed entirely. -/
theorem updateIntegrity_overlay_lock_only (H : HashLib)
    (f : String → Option Bytes) (st : VersionState) (s0 r : SourceRecord)
    (es : List OverlayEntry)
    (hs : st.source = some (some s0)) (hnd : (keys s0).Nodup)
    (hov : st.overlayDir = some es)
    (hall : ∀ e ∈ es, e.isFile = true → baseName e = "MODULE.bazel.lock")
    (h : update_integrity H f st = .ok r) :
    overlayFiles es = [] ∧ dictGet r "overlay" = none := by
  have hfil : overlayFiles es = [] := by
    unfold overlayFiles
    rw [List.filter_eq_nil_iff]
    intro e he
    simp only [Bool.and_eq_true, decide_eq_true_eq, not_and]
    intro hf hne
    exact hne (hall e he hf)
  refine ⟨hfil, ?_⟩
  obtain ⟨hv, t0, s1, s2, hs', hu, hp, ho⟩ := update_integrity_ok_inv h
  rw [hs] at hs'
  obtain rfl : s0 = t0 := Option.some.inj (Option.some.inj hs')
  have hnd2 : (keys s2).Nodup :=
    patchesStep_nodup hp (urlStep_nodup hu hnd)
  rcases overlayStep_ok_inv ho with ⟨_, rfl⟩ | ⟨es', m, hes', hne', hb, rfl⟩
  · exact dictGet_dictPop_self _ _ hnd2
  · rw [hov] at hes'
    obtain rfl : es = es' := Option.some.inj hes'
    exact absurd hfil hne'

/-- The overlay entry of the C9 witness: a lock file at the overlay root. -/
def lockEntry : OverlayEntry := ⟨["MODULE.bazel.lock"], true, some [1]⟩

/-- The version state of the C9 witness. -/
def lockOnlySt : VersionState :=
  ⟨true, some (some [("y", JValue.bool true)]), none, some [lockEntry]⟩

/-- Witness for C9: an overlay directory holding only a
`MODULE.bazel.lock` file. -/
theorem updateIntegrity_overlay_lock_only_witness :
    lockOnlySt.source = some (some [("y", JValue.bool true)]) ∧
    (keys [("y", JValue.bool true)]).Nodup ∧
    lockOnlySt.overlayDir = some [lockEntry] ∧
    (∀ e ∈ [lockEntry], e.isFile = true → baseName e = "MODULE.bazel.lock") ∧
    update_integrity testHashLib noFetch lockOnlySt =
      .ok [("y", JValue.bool true)] ∧
    overlayFiles [lockEntry] = [] ∧
    dictGet [("y", JValue.bool true)] "overlay" = none :=
  ⟨rfl, by decide, rfl, by decide, rfl,
   (updateIntegrity_overlay_lock_only testHashLib noFetch lockOnlySt
      [("y", JValue.bool true)] [("y", JValue.bool true)] [lockEntry]
      rfl (by decide) rfl (by decide) rfl).1,
   (updateIntegrity_overlay_lock_only testHashLib noFetch lockOnlySt
      [("y", JValue.bool true)] [("y", JValue.bool true)] [lockEntry]
      rfl (by decide) rfl (by decide) rfl).2⟩

/-- **C10**: patch reconciliation sees only the regular-file immediate
children of the Patch Set directory: the whole update is unchanged if the
non-file entries are dropped from the listing, and a Patch Set directory
containing no regular file (e.g. only subdirectories) removes the `patches`
field from the record. -/
theorem updateIntegrity_patches_only_regular_files (H : HashLib)
    (f : String → Option Bytes) (st : VersionState) (es : List PatchEntry)
    (hpd : st.patchesDir = some es) :
    update_integrity H f st =
      update_integrity H f
        { st with patchesDir := some (es.filter (fun p => p.isFile)) } ∧
    (∀ s0 r, es.filter (fun p => p.isFile) = [] →
      st.source = some (some s0) → (keys s0).Nodup →
      update_integrity H f st = .ok r → dictGet r "patches" = none) := by
  constructor
  · have hps : ∀ s : SourceRecord,
        patchesStep H (some (es.filter (fun p => p.isFile))) s =
          patchesStep H (some es) s := by
      intro s
      simp only [patchesStep]
      rw [List.filter_filter]
      simp only [Bool.and_self]
    unfold update_integrity
    simp only [hpd, hps]
  · intro s0 r hfil hs hnd h
    obtain ⟨hv, t0, s1, s2, hs', hu, hp, ho⟩ := update_integrity_ok_inv h
    rw [hs] at hs'
    obtain rfl : s0 = t0 := Option.some.inj (Option.some.inj hs')
    have hnd1 : (keys s1).Nodup := urlStep_nodup hu hnd
    rcases patchesStep_ok_inv hp with ⟨_, rfl⟩ | ⟨es', m, hes', hne', hb, rfl⟩
    · rw [overlayStep_get_ne ho (by decide)]
      exact dictGet_dictPop_self _ _ hnd1
    · rw [hpd] at hes'
      obtain rfl : es = es' := Option.some.inj hes'
      exact absurd hfil hne'

/-- The patch entry of the C10 witness: a subdirectory, not a file. -/
def subdirEntry : PatchEntry := ⟨"sub", false, none⟩

/-- The version state of the C10 witness. -/
def subdirOnlySt : VersionState :=
  ⟨true, some (some [("x", JValue.num 1)]), some [subdirEntry], none⟩

/-- Witness for C10: a Patch Set directory whose only entry is a
subdirectory. -/
theorem updateIntegrity_patches_only_regular_files_witness :
    subdirOnlySt.patchesDir = some [subdirEntry] ∧
    update_integrity testHashLib noFetch subdirOnlySt =
      update_integrity testHashLib noFetch
        { subdirOnlySt with
          patchesDir := some ([subdirEntry].filter (fun p => p.isFile)) } ∧
    update_integrity testHashLib noFetch subdirOnlySt =
      .ok [("x", JValue.num 1)] ∧
    dictGet [("x", JValue.num 1)] "patches" = none :=
  ⟨rfl,
   (updateIntegrity_patches_only_regular_files testHashLib noFetch
      subdirOnlySt [subdirEntry] rfl).1,
   rfl,
   (updateIntegrity_patches_only_regular_files testHashLib noFetch
      subdirOnlySt [subdirEntry] rfl).2 [("x", JValue.num 1)]
     [("x", JValue.num 1)] rfl rfl (by decide) rfl⟩

/-- Counterexample for C8 as stated: `module_exists` uses
`pathlib.Path.exists()`, which is true for a regular file too, so a
non-directory entry named like the module makes `module_exists` return
`true` even though no module *directory* exists. -/
theorem module_exists_nondir_cex :
    module_exists [FSEntry.file "m"] "m" none = true ∧
    isDirAt [FSEntry.file "m"] "m" = false :=
  ⟨rfl, rfl⟩

/-- **C8 (amended)**: `module_exists(module, version)` is exactly filesystem
path existence — of any entry kind, directory or not — at
`<modules>/<module>` when the version is omitted and at
`<modules>/<module>/<version>` when it is given; a non-directory entry *does*
count at the final component (though a file named like the module makes
every version query false, since a file has no children). -/
theorem module_exists_amended (es : List FSEntry) (moduleName : String)
    (version : Option String) :
    module_exists es moduleName version =
      pathExists es
        (match version with
         | none => [moduleName]
         | some v => [moduleName, v]) := by
  cases version with
  | none =>
    unfold module_exists pathExists
    cases he : lookupEntry es moduleName with
    | none => rfl
    | some e => cases e with
      | file n => rfl
      | dir n children => rfl
  | some v =>
    unfold module_exists pathExists
    cases he : lookupEntry es moduleName with
    | none => rfl
    | some e => cases e with
      | file n => rfl
      | dir n children =>
        show (lookupEntry children v).isSome = pathExists children [v]
        unfold pathExists
        cases he2 : lookupEntry children v with
        | none => rfl
        | some e2 => cases e2 with
          | file n2 => rfl
          | dir n2 cs2 => rfl

end RegistryTool
